import Mathlib

/-!
Verification of the rector-vsc extension's core algorithms against its
specification.  The TypeScript sources are shallowly embedded: JavaScript
strings are modelled as lists of characters (`JsStr`), stateful control flow
as explicit state passing, and calls into external libraries (the `path`
module, `JSON.parse`, `child_process.execFile`, the VS Code API) as function
parameters of an environment record.
-/

/-- A JavaScript string, modelled by its sequence of characters. -/
abbrev JsStr := List Char

/-- JavaScript array indexing `xs[i]` on an array of strings.  An
out-of-range read yields `undefined`; the only observation of such a read in
the embedded code is `Array.prototype.join`, which serialises `undefined` as
the empty string, so the model returns the empty string directly. -/
def jsGet (xs : List JsStr) (i : Nat) : JsStr := xs.getD i []

/-- JavaScript `str.split("\n")` (a one-character string separator splits at
every occurrence and keeps empty fields, including a trailing one). -/
def splitNl : JsStr → List JsStr
  | [] => [[]]
  | c :: cs =>
    if c = '\n' then [] :: splitNl cs
    else
      match splitNl cs with
      | [] => [[c]]
      | l :: ls => (c :: l) :: ls

/-- JavaScript `arr.join("\n")`. -/
def joinNl : List JsStr → JsStr
  | [] => []
  | [l] => l
  | l :: l2 :: ls => l ++ '\n' :: joinNl (l2 :: ls)

/-- The set of characters accepted by JavaScript `String.prototype.trim`
(ECMAScript WhiteSpace and LineTerminator code points). -/
def isJsWhitespace (c : Char) : Bool :=
  c = ' ' || c = '\t' || c = '\n' || c.toNat = 11 || c.toNat = 12 || c = '\r' ||
  c.toNat = 0xa0 || c.toNat = 0x1680 ||
  (0x2000 ≤ c.toNat && c.toNat ≤ 0x200a) ||
  c.toNat = 0x2028 || c.toNat = 0x2029 || c.toNat = 0x202f ||
  c.toNat = 0x205f || c.toNat = 0x3000 || c.toNat = 0xfeff

/-- JavaScript `line.trim() === ''`: every character is whitespace. -/
def isBlankLine (cs : JsStr) : Bool := cs.all isJsWhitespace

/-- The character class `\d` of a JavaScript regular expression. -/
def isDigitChar (c : Char) : Bool := '0' ≤ c && c ≤ '9'

/-- Split a leading run of decimal digits (the greedy `\d+` / `\d*`). -/
def takeDigits : JsStr → JsStr × JsStr
  | [] => ([], [])
  | c :: cs =>
    if isDigitChar c then
      let p := takeDigits cs
      (c :: p.1, p.2)
    else ([], c :: cs)

/-- `parseInt(s, 10)` on a non-empty string of decimal digits. -/
def digitsToNat (ds : JsStr) : Nat :=
  ds.foldl (fun a c => a * 10 + (c.toNat - 48)) 0

/-- The optional comma `,?` of the hunk-header pattern. -/
def skipComma : JsStr → JsStr
  | ',' :: r => r
  | r => r

/-- Attempt to match the regular expression
`@@ -(\d+),?(\d*) \+(\d+),?(\d*) @@` at the head of the character sequence,
returning the first captured group parsed with `parseInt` (the only capture
the source reads).  The pattern is deterministic: no alternative needs
backtracking because a digit is never a comma or a space. -/
def matchHeaderAt : JsStr → Option Nat
  | '@' :: '@' :: ' ' :: '-' :: r0 =>
    let p1 := takeDigits r0
    if p1.1.isEmpty then none
    else
      match (takeDigits (skipComma p1.2)).2 with
      | ' ' :: '+' :: r4 =>
        let p3 := takeDigits r4
        if p3.1.isEmpty then none
        else
          match (takeDigits (skipComma p3.2)).2 with
          | ' ' :: '@' :: '@' :: _ => some (digitsToNat p1.1)
          | _ => none
      | _ => none
  | _ => none

/-- `line.match(/@@ -(\d+),?(\d*) \+(\d+),?(\d*) @@/)`: the engine tries
every start position from the left and the source reads capture 1 of the
first successful match. -/
def findHeader : JsStr → Option Nat
  | [] => none
  | c :: cs =>
    match matchHeaderAt (c :: cs) with
    | some n => some n
    | none => findHeader cs

/-- The mutable state of `DiffViewManager.applyDiff`
(src/src/diffViewManager.ts lines 255-258): the cursor `originalIndex`, the
`inHeader` flag and the accumulated `result` array. -/
structure DState where
  idx : Nat
  inHeader : Bool
  res : List JsStr
deriving DecidableEq

/-- The while loop `while (originalIndex < target) result.push(original
Lines[originalIndex]); originalIndex++` used both under a hunk header
(target `oldStart - 1`, lines 271-274) and as the trailing copy (target
`originalLines.length`, lines 299-302). -/
def copyLoopAux (orig : List JsStr) : Nat → Nat → List JsStr
  | 0, _ => []
  | fuel + 1, idx => jsGet orig idx :: copyLoopAux orig fuel (idx + 1)

/-- The loop runs `target - idx` iterations (and zero when the cursor is
already at or past the target, matching the loop condition). -/
def copyLoop (orig : List JsStr) (idx target : Nat) : List JsStr :=
  copyLoopAux orig (target - idx) idx

/-- One iteration of the `for` loop of `DiffViewManager.applyDiff`
(src/src/diffViewManager.ts lines 260-297), in source order: skip
`---`/`+++` lines; on `@@` lines run the hunk-header regex and, on a match,
copy originals up to `oldStart - 1` and leave the header section; skip
everything while still in the header; then the deletion, insertion, context
and tolerated-blank branches. -/
def applyDiffLine (orig : List JsStr) (st : DState) (line : JsStr) : DState :=
  if List.isPrefixOf ['-', '-', '-'] line || List.isPrefixOf ['+', '+', '+'] line then st
  else if List.isPrefixOf ['@', '@'] line then
    match findHeader line with
    | some oldStart =>
      { idx := max st.idx (oldStart - 1), inHeader := false,
        res := st.res ++ copyLoop orig st.idx (oldStart - 1) }
    | none => st
  else if st.inHeader then st
  else if List.isPrefixOf ['-'] line then { st with idx := st.idx + 1 }
  else if List.isPrefixOf ['+'] line then { st with res := st.res ++ [line.drop 1] }
  else if List.isPrefixOf [' '] line then
    { st with idx := st.idx + 1, res := st.res ++ [jsGet orig st.idx] }
  else if isBlankLine line then
    if st.idx < orig.length && isBlankLine (jsGet orig st.idx) then
      { st with idx := st.idx + 1, res := st.res ++ [[]] }
    else st
  else st

/-- The full `for` loop over the diff's lines. -/
def applyDiffLoop (orig : List JsStr) : DState → List JsStr → DState
  | st, [] => st
  | st, l :: ls => applyDiffLoop orig (applyDiffLine orig st l) ls

/-- `DiffViewManager.applyDiff` on character sequences: split both inputs on
newlines, run the loop from cursor 0 inside the header section, append the
remaining original lines and join with newlines. -/
def applyDiffChars (origChars diffChars : JsStr) : JsStr :=
  let originalLines := splitNl origChars
  let st := applyDiffLoop originalLines ⟨0, true, []⟩ (splitNl diffChars)
  joinNl (st.res ++ copyLoop originalLines st.idx originalLines.length)

/-- `DiffViewManager.applyDiff` (src/src/diffViewManager.ts lines 251-308).
Its `try`/`catch` returns `null` on an exception, but every operation in the
body is total on string arguments (`split`, `startsWith`, `match`,
`parseInt`, array reads — an out-of-range read yields `undefined`, which
`join` serialises as an empty string), so the catch is unreachable and the
result is always a string, modelled as `some`. -/
def applyDiff (originalContent diff : String) : Option String :=
  some (String.mk (applyDiffChars originalContent.data diff.data))

/-- The guard of `DiffViewManager.showDiff` (src/src/diffViewManager.ts
lines 29-34): `if (!modifiedContent)` show a warning and return, otherwise
proceed to write the scratch file and open the session.  The check is a
JavaScript falsiness test, so both `null` and the empty string abort. -/
def showDiffCreatesSession (originalContent diff : String) : Bool :=
  match applyDiff originalContent diff with
  | none => false
  | some m => m != ""

/-- The greedy suffix step of the regular expression `\{[\s\S]*\}`: the
prefix of the character sequence that ends at the last closing brace, if a
closing brace occurs at all. -/
def lastCloseSeg : JsStr → Option JsStr
  | [] => none
  | c :: cs =>
    match lastCloseSeg cs with
    | some seg => some (c :: seg)
    | none => if c = '}' then some [c] else none

/-- `stdout.match(/\{[\s\S]*\}/)`: the engine scans for the first start
position with an opening brace followed (anywhere later) by a closing
brace; greediness makes the match run to the last closing brace of the
whole input. -/
def braceSpan : JsStr → Option JsStr
  | [] => none
  | c :: cs =>
    if c = '{' then
      match lastCloseSeg cs with
      | some seg => some (c :: seg)
      | none => braceSpan cs
    else braceSpan cs

/-- `RectorRunner.parseJsonOutput` (src/src/rectorRunner.ts lines 227-239).
The external `JSON.parse` is a parameter `jsonParse`; `none` stands for a
thrown parse exception, which the source's `catch` turns into `null`.  When
the brace regex matches, only the matched span is ever parsed — the
fall-through `JSON.parse(stdout)` runs only when no span exists. -/
def parseJsonOutput {J : Type} (jsonParse : JsStr → Option J) (stdout : JsStr) : Option J :=
  match braceSpan stdout with
  | some span => jsonParse span
  | none => jsonParse stdout

/-- The `totals` object of the tool's JSON output. -/
structure RectorTotals where
  changed_files : Int
  errors : Int
deriving DecidableEq

/-- One entry of the `file_diffs` array of the tool's JSON output. -/
structure RectorFileDiff where
  file : String
  diff : String
  applied_rectors : List String
deriving DecidableEq

/-- The `RectorJsonOutput` interface (src/src/rectorRunner.ts lines 17-27);
`file_diffs` is optional. -/
structure RectorJsonOutput where
  totals : RectorTotals
  file_diffs : Option (List RectorFileDiff)
deriving DecidableEq

/-- The `RectorResult` interface (src/src/rectorRunner.ts lines 9-15);
optional fields are `Option`, `none` meaning absent. -/
structure RectorResult where
  success : Bool
  changedFiles : Int
  diff : Option String
  error : Option String
  appliedRectors : Option (List String)
deriving DecidableEq

/-- Outcome of the one `execFile` call a `processFile` invocation may make:
either a clean exit with captured stdout, or a thrown error carrying an
`ENOENT` flag, optionally captured stdout, a message and a stderr text
(empty strings model falsy/absent message and stderr). -/
inductive ExecOutcome where
  | ok (stdout : JsStr)
  | err (enoent : Bool) (stdout : Option JsStr) (message : String) (stderr : String)

/-- Environment of one `RectorRunner.processFile` invocation: the values
read from the `rector` configuration section, the workspace state, and the
external collaborators (`path` functions, `fs.existsSync`, `JSON.parse`,
the spawned process) as abstract functions.  `dirFuel` bounds the ancestor
walk of `findConfigFile`; Node's `path.dirname` reaches a fixed point after
finitely many steps (the source's loop condition), so a large enough fuel
reproduces the loop exactly. -/
structure RectorEnv where
  executablePath : String
  configPath : String
  clearCache : Bool
  hasWorkspace : Bool
  workspaceRoot : String
  resolvePath : String → String → String
  dirname : String → String
  joinPath : String → String → String
  fsExists : String → Bool
  dirFuel : Nat
  jsonParse : JsStr → Option RectorJsonOutput
  exec : ExecOutcome

/-- Loop body of `RectorRunner.findConfigFile` (src/src/rectorRunner.ts
lines 67-82): walk `path.dirname` ancestors until a directory equals its
own parent, trying `rector.php` then `rector.php.dist` in each. -/
def findConfigLoop (env : RectorEnv) : Nat → String → Option String
  | 0, _ => none
  | fuel + 1, dir =>
    if dir == env.dirname dir then none
    else if env.fsExists (env.joinPath dir "rector.php") then
      some (env.joinPath dir "rector.php")
    else if env.fsExists (env.joinPath dir "rector.php.dist") then
      some (env.joinPath dir "rector.php.dist")
    else findConfigLoop env fuel (env.dirname dir)

/-- `RectorRunner.findConfigFile`, starting from the directory containing
the target file. -/
def findConfigFile (env : RectorEnv) (filePath : String) : Option String :=
  findConfigLoop env env.dirFuel (env.dirname filePath)

/-- `RectorRunner.resolveExecutablePath` (src/src/rectorRunner.ts lines
56-65): a `./` or `../` path is resolved against the first workspace root
when one exists, anything else is returned unchanged. -/
def resolveExecutablePath (env : RectorEnv) (p : String) : String :=
  if (p.startsWith "./" || p.startsWith "../") && env.hasWorkspace then
    env.resolvePath env.workspaceRoot p
  else p

/-- The resolution applied to an explicitly configured config path
(src/src/rectorRunner.ts lines 109-115): only `./` and `../` paths are
resolved, and only when a workspace is open. -/
def resolvedConfigPath (env : RectorEnv) : String :=
  if env.configPath.startsWith "./" || env.configPath.startsWith "../" then
    if env.hasWorkspace then env.resolvePath env.workspaceRoot env.configPath
    else env.configPath
  else env.configPath

/-- Argument list construction (src/src/rectorRunner.ts lines 87-98 and
129-131), in source order. -/
def buildArgs (env : RectorEnv) (filePath : String) (dryRun : Bool) (configPath : String) :
    List String :=
  ["process", filePath]
    ++ (if dryRun then ["--dry-run"] else [])
    ++ ["--output-format=json", "--no-progress-bar"]
    ++ (if env.clearCache then ["--clear-cache"] else [])
    ++ (if configPath != "" then ["--config=" ++ configPath] else [])

/-- A failed `RectorResult` as built at every failure return of
`processFile`. -/
def failResult (msg : String) : RectorResult :=
  { success := false, changedFiles := 0, diff := none, error := some msg,
    appliedRectors := none }

/-- The success result built from parsed output (src/src/rectorRunner.ts
lines 156-174 and 192-210): `success` is true, `changedFiles` copies
`totals.changed_files`, and when `file_diffs` is present and non-empty the
first record's diff and applied rectors are attached. -/
def buildSuccessResult (output : RectorJsonOutput) : RectorResult :=
  let base : RectorResult :=
    { success := true, changedFiles := output.totals.changed_files,
      diff := none, error := none, appliedRectors := none }
  match output.file_diffs with
  | some (fd :: _) =>
    { base with diff := some fd.diff, appliedRectors := some fd.applied_rectors }
  | _ => base

/-- Result of one modelled `processFile` invocation; `spawned` is
`some (executable, args)` exactly when `execFile` was reached. -/
structure ProcessOutcome where
  result : RectorResult
  spawned : Option (String × List String)

/-- The `try`/`catch` around `execFile` (src/src/rectorRunner.ts lines
138-224): a clean exit parses stdout (parse failure is a failed result); a
thrown `ENOENT` reports the configured executable as missing; any other
throw with truthy captured stdout is re-parsed as a success before falling
back to `error.message || error.stderr || 'Unknown error'`. -/
def execPhase (env : RectorEnv) (exe : String) (args : List String) : ProcessOutcome :=
  match env.exec with
  | ExecOutcome.ok stdout =>
    match parseJsonOutput env.jsonParse stdout with
    | none =>
      { result := failResult "Failed to parse Rector output", spawned := some (exe, args) }
    | some output =>
      { result := buildSuccessResult output, spawned := some (exe, args) }
  | ExecOutcome.err enoent stdoutOpt message stderr =>
    if enoent then
      { result := failResult ("Rector executable not found: " ++ env.executablePath),
        spawned := some (exe, args) }
    else
      let fallbackMsg :=
        if message != "" then message
        else if stderr != "" then stderr
        else "Unknown error"
      let fallback : ProcessOutcome :=
        { result := failResult fallbackMsg, spawned := some (exe, args) }
      match stdoutOpt with
      | some s =>
        if s.isEmpty then fallback
        else
          match parseJsonOutput env.jsonParse s with
          | some output => { result := buildSuccessResult output, spawned := some (exe, args) }
          | none => fallback
      | none => fallback

/-- `RectorRunner.processFile` (src/src/rectorRunner.ts lines 84-225).
With no configured config path, auto-discovery runs and its result (or
nothing) is appended to the arguments; an explicitly configured path is
resolved and must exist on disk, otherwise the invocation fails before the
process is spawned. -/
def processFile (env : RectorEnv) (filePath : String) (dryRun : Bool) : ProcessOutcome :=
  let exe := resolveExecutablePath env env.executablePath
  if env.configPath == "" then
    let cfg := (findConfigFile env filePath).getD ""
    execPhase env exe (buildArgs env filePath dryRun cfg)
  else
    let resolved := resolvedConfigPath env
    if env.fsExists resolved then execPhase env exe (buildArgs env filePath dryRun resolved)
    else
      { result := failResult ("Config file not found: " ++ resolved), spawned := none }

/-- The two values the pending-choice resolver of
`DiffViewManager.showStatusBarChoice` can be called with by the two command
handlers. -/
inductive DiffChoice where
  | apply
  | discard
deriving DecidableEq

/-- The session-relevant mutable fields of `DiffViewManager` during one
`showDiff` confirmation, plus two bookkeeping fields of the event model:
`pendingChoice` is whether the stored resolver is still unclaimed (the
field is non-null), `resolvedValue` the value the decision promise was
resolved with, `continuationRan` whether the code after
`await this.showStatusBarChoice()` (src/src/diffViewManager.ts lines
58-76) has been scheduled — a JavaScript promise runs its continuation at
most once — `isApplying` the single-flight flag, and `applyCalls` the
number of invocations of the apply callback. -/
structure SessionState where
  pendingChoice : Bool
  resolvedValue : Option DiffChoice
  continuationRan : Bool
  isApplying : Bool
  applyCalls : Nat
deriving DecidableEq

/-- `DiffViewManager.handleApplyChoice` (src/src/diffViewManager.ts lines
211-220): a no-op while an apply is in flight; otherwise, if the resolver
is still stored, resolve it with Apply and null it out. -/
def handleApplyChoice (s : SessionState) : SessionState :=
  if s.isApplying then s
  else if s.pendingChoice then
    { s with pendingChoice := false, resolvedValue := some DiffChoice.apply }
  else s

/-- `DiffViewManager.handleDiscardChoice` (src/src/diffViewManager.ts lines
222-227). -/
def handleDiscardChoice (s : SessionState) : SessionState :=
  if s.pendingChoice then
    { s with pendingChoice := false, resolvedValue := some DiffChoice.discard }
  else s

/-- The continuation of `showDiff` after the decision promise resolves
(src/src/diffViewManager.ts lines 60-70): on Apply, the single-flight guard
`if (!this.isApplying)` sets the flag and invokes the apply callback; on
Discard nothing callback-related happens.  The `continuationRan` guard is
promise semantics: a resolved promise schedules its continuation exactly
once. -/
def runContinuationStep (s : SessionState) : SessionState :=
  if s.continuationRan then s
  else
    match s.resolvedValue with
    | none => s
    | some DiffChoice.apply =>
      if s.isApplying then { s with continuationRan := true }
      else
        { s with continuationRan := true, isApplying := true,
                 applyCalls := s.applyCalls + 1 }
    | some DiffChoice.discard => { s with continuationRan := true }

/-- The `finally` of the apply block (src/src/diffViewManager.ts lines
66-68): the in-flight flag is reset when the awaited callback finishes. -/
def finishApplyStep (s : SessionState) : SessionState :=
  if s.isApplying then { s with isApplying := false } else s

/-- Events that can be interleaved during one confirmation session: the two
status-bar commands, the scheduler running the resolved promise's
continuation, and completion of the awaited apply callback. -/
inductive SessionEv where
  | clickApply
  | clickDiscard
  | runContinuation
  | finishApply

/-- One event step of the session model. -/
def sessionStep (s : SessionState) : SessionEv → SessionState
  | SessionEv.clickApply => handleApplyChoice s
  | SessionEv.clickDiscard => handleDiscardChoice s
  | SessionEv.runContinuation => runContinuationStep s
  | SessionEv.finishApply => finishApplyStep s

/-- Run a sequence of interleaved events. -/
def runSession (s : SessionState) (evs : List SessionEv) : SessionState :=
  evs.foldl sessionStep s

/-- The state right after `showStatusBarChoice` stores the resolver
(src/src/diffViewManager.ts line 174): a fresh session with an unclaimed
pending choice. -/
def initialSession : SessionState :=
  { pendingChoice := true, resolvedValue := none, continuationRan := false,
    isApplying := false, applyCalls := 0 }

/-- External path operations used by `DiffViewManager.showDiff` and
`DiffViewManager.getTempDir` (src/src/diffViewManager.ts lines 36-45 and
310-325), as abstract functions together with the workspace state. -/
structure TmpEnv where
  hasWorkspace : Bool
  workspaceRoot : String
  osTmpDir : String
  joinPath : String → String → String
  normalizePath : String → String
  basename : String → String

/-- `DiffViewManager.getTempDir`: `<workspaceRoot>/.rector-tmp` when a
workspace folder exists, else `<os.tmpdir()>/rector-vscode`. -/
def getTempDir (env : TmpEnv) : String :=
  if env.hasWorkspace then env.joinPath env.workspaceRoot ".rector-tmp"
  else env.joinPath env.osTmpDir "rector-vscode"

/-- The scratch-artifact path computed by `showDiff`
(src/src/diffViewManager.ts lines 36-39):
`normalize(join(tmpDir, basename + ".rector.tmp.php"))`. -/
def tmpFilePathFor (env : TmpEnv) (originalFsPath : String) : String :=
  env.normalizePath
    (env.joinPath (getTempDir env) (env.basename originalFsPath ++ ".rector.tmp.php"))

/-- The character of a decimal digit. -/
def digitChar (d : Nat) : Char := Char.ofNat (48 + d)

/-- Digits of `n`, most significant first, computed with enough fuel. -/
def natToDecimalAux : Nat → Nat → JsStr
  | 0, _ => []
  | fuel + 1, n =>
    if n < 10 then [digitChar n]
    else natToDecimalAux fuel (n / 10) ++ [digitChar (n % 10)]

/-- The decimal notation of a natural number, most significant digit
first — the digit string a diff producer writes into a hunk header. -/
def natToDecimal (n : Nat) : JsStr := natToDecimalAux (n + 1) n

/-- One line of a unified-diff hunk body in the format of spec section 4.3:
unchanged context, a deletion of an original line, or an insertion of a new
line. -/
inductive HunkLine where
  | ctx (s : JsStr)
  | del (s : JsStr)
  | ins (s : JsStr)
deriving DecidableEq

/-- Render a hunk-body line with its one-character marker. -/
def renderHunkLine : HunkLine → JsStr
  | HunkLine.ctx s => ' ' :: s
  | HunkLine.del s => '-' :: s
  | HunkLine.ins s => '+' :: s

/-- Number of original lines a hunk body spans (context plus deletions). -/
def oldLineCount : List HunkLine → Nat
  | [] => 0
  | HunkLine.ctx _ :: r => oldLineCount r + 1
  | HunkLine.del _ :: r => oldLineCount r + 1
  | HunkLine.ins _ :: r => oldLineCount r

/-- Number of modified lines a hunk body yields (context plus
insertions). -/
def newLineCount : List HunkLine → Nat
  | [] => 0
  | HunkLine.ctx _ :: r => newLineCount r + 1
  | HunkLine.del _ :: r => newLineCount r
  | HunkLine.ins _ :: r => newLineCount r + 1

/-- The modified-file lines denoted by a hunk body. -/
def bodyNewLines : List HunkLine → List JsStr
  | [] => []
  | HunkLine.ctx s :: r => s :: bodyNewLines r
  | HunkLine.del _ :: r => bodyNewLines r
  | HunkLine.ins s :: r => s :: bodyNewLines r

/-- One hunk: its 1-indexed original start line and its body. -/
structure Hunk where
  oldStart : Nat
  body : List HunkLine
deriving DecidableEq

/-- A hunk-header line `@@ -a,b +c,d @@`. -/
def hunkHeader (a b c d : Nat) : JsStr :=
  '@' :: '@' :: ' ' :: '-' ::
    (natToDecimal a ++ ',' ::
      (natToDecimal b ++ ' ' :: '+' ::
        (natToDecimal c ++ ',' :: (natToDecimal d ++ [' ', '@', '@']))))

/-- Render one hunk: header then marked body lines.  `shift` is the
cumulative line offset of the preceding hunks, so `oldStart + shift` is the
new-file start position a diff producer writes (the source never reads the
new-file numbers). -/
def renderHunk (h : Hunk) (shift : Int) : List JsStr :=
  hunkHeader h.oldStart (oldLineCount h.body) (Int.toNat (h.oldStart + shift))
      (newLineCount h.body) :: h.body.map renderHunkLine

/-- Render a hunk sequence to diff lines, tracking the cumulative offset. -/
def renderHunksLines : Int → List Hunk → List JsStr
  | _, [] => []
  | shift, h :: hs =>
    renderHunk h shift ++
      renderHunksLines (shift + (newLineCount h.body : Int) - (oldLineCount h.body : Int)) hs

/-- The full diff text of a hunk sequence, newline-joined. -/
def renderDiff (hs : List Hunk) : String :=
  String.mk (joinNl (renderHunksLines 0 hs))

/-- A hunk-body line is renderable without colliding with the reconstructor's
line classification: its content contains no newline (it must occupy one diff
line), a deleted line does not itself start with `--` (its rendering would
start with `---` and be skipped as a file header), and an inserted line does
not itself start with `++` (rendering `+++`). -/
def lineOk : HunkLine → Bool
  | HunkLine.ctx s => !s.contains '\n'
  | HunkLine.del s => !s.contains '\n' && !(List.isPrefixOf ['-', '-'] s)
  | HunkLine.ins s => !s.contains '\n' && !(List.isPrefixOf ['+', '+'] s)

/-- A hunk body describes the original file truthfully from 0-indexed line
`i`: context and deleted lines carry exactly the original lines they stand
at. -/
def bodyMatches (O : List JsStr) : Nat → List HunkLine → Bool
  | _, [] => true
  | i, HunkLine.ctx s :: r => (O[i]? == some s) && bodyMatches O (i + 1) r
  | i, HunkLine.del s :: r => (O[i]? == some s) && bodyMatches O (i + 1) r
  | i, HunkLine.ins _ :: r => bodyMatches O i r

/-- A hunk sequence is a well-formed diff of the original lines `O` when
read from cursor position `pos` (0-indexed): hunks start at or after the
cursor and within the file, in order, every body line renders unambiguously
and matches the original. -/
def hunksValidFrom (O : List JsStr) : Nat → List Hunk → Bool
  | _, [] => true
  | pos, h :: hs =>
    decide (1 ≤ h.oldStart) && decide (pos ≤ h.oldStart - 1) &&
    decide (h.oldStart - 1 ≤ O.length) &&
    h.body.all lineOk && bodyMatches O (h.oldStart - 1) h.body &&
    hunksValidFrom O (h.oldStart - 1 + oldLineCount h.body) hs

/-- The modified-file lines denoted by a diff: unchanged originals up to
each hunk, each hunk's new lines, and the unchanged tail. -/
def idealLinesFrom (O : List JsStr) : Nat → List Hunk → List JsStr
  | pos, [] => O.drop pos
  | pos, h :: hs =>
    (O.drop pos).take (h.oldStart - 1 - pos) ++ bodyNewLines h.body ++
      idealLinesFrom O (h.oldStart - 1 + oldLineCount h.body) hs

/-- The modified content `M` a hunk-sequence diff of `orig` denotes. -/
def modifiedContent (orig : String) (hs : List Hunk) : String :=
  String.mk (joinNl (idealLinesFrom (splitNl orig.data) 0 hs))

/-- Cursor position in the original after processing a hunk sequence. -/
def hunksEndPos : Nat → List Hunk → Nat
  | pos, [] => pos
  | _, h :: hs => hunksEndPos (h.oldStart - 1 + oldLineCount h.body) hs

/-- Output accumulated while processing a hunk sequence (everything except
the final unchanged tail). -/
def hunksOut (O : List JsStr) : Nat → List Hunk → List JsStr
  | _, [] => []
  | pos, h :: hs =>
    (O.drop pos).take (h.oldStart - 1 - pos) ++ bodyNewLines h.body ++
      hunksOut O (h.oldStart - 1 + oldLineCount h.body) hs

lemma digitChar_toNat {d : Nat} (hd : d < 10) : (digitChar d).toNat = 48 + d := by
  interval_cases d <;> rfl

lemma isDigitChar_digitChar {d : Nat} (hd : d < 10) : isDigitChar (digitChar d) = true := by
  interval_cases d <;> rfl

lemma natToDecimal_ne_nil (n : Nat) : natToDecimal n ≠ [] := by
  rw [natToDecimal, natToDecimalAux]
  split
  · simp
  · simp

lemma natToDecimal_isEmpty (n : Nat) : (natToDecimal n).isEmpty = false := by
  cases h : natToDecimal n with
  | nil => exact absurd h (natToDecimal_ne_nil n)
  | cons c cs => rfl

lemma natToDecimalAux_all_digits :
    ∀ fuel n, ∀ c ∈ natToDecimalAux fuel n, isDigitChar c = true := by
  intro fuel
  induction fuel with
  | zero => intro n c hc; simp [natToDecimalAux] at hc
  | succ fuel ih =>
    intro n c hc
    rw [natToDecimalAux] at hc
    split at hc
    · simp at hc
      subst hc
      exact isDigitChar_digitChar (by omega)
    · rcases List.mem_append.mp hc with hm | hm
      · exact ih _ c hm
      · simp at hm
        subst hm
        exact isDigitChar_digitChar (Nat.mod_lt _ (by omega))

lemma natToDecimal_all_digits (n : Nat) : ∀ c ∈ natToDecimal n, isDigitChar c = true :=
  natToDecimalAux_all_digits (n + 1) n

lemma noNl_of_all_digits {l : JsStr} (h : ∀ c ∈ l, isDigitChar c = true) :
    l.contains '\n' = false := by
  by_contra hc
  rw [Bool.not_eq_false] at hc
  have hmem : '\n' ∈ l := by simpa using hc
  have := h _ hmem
  simp [isDigitChar] at this

lemma natToDecimalAux_foldl :
    ∀ fuel n a, n < 10 ^ fuel →
      (natToDecimalAux fuel n).foldl (fun acc cc => acc * 10 + (cc.toNat - 48)) a =
        a * 10 ^ (natToDecimalAux fuel n).length + n := by
  intro fuel
  induction fuel with
  | zero =>
    intro n a hn
    have : n = 0 := by simpa using hn
    subst this
    simp [natToDecimalAux]
  | succ fuel ih =>
    intro n a hn
    rw [natToDecimalAux]
    by_cases h10 : n < 10
    · rw [if_pos h10]
      simp only [List.foldl_cons, List.foldl_nil, List.length_singleton]
      rw [digitChar_toNat h10, Nat.add_sub_cancel_left]
      ring
    · rw [if_neg h10]
      have hdiv : n / 10 < 10 ^ fuel := by
        rw [Nat.div_lt_iff_lt_mul (by omega)]
        calc n < 10 ^ (fuel + 1) := hn
        _ = 10 ^ fuel * 10 := by ring
      rw [List.foldl_append, ih (n / 10) a hdiv]
      simp only [List.foldl_cons, List.foldl_nil, List.length_append,
        List.length_singleton]
      rw [digitChar_toNat (Nat.mod_lt _ (by omega)), Nat.add_sub_cancel_left]
      have hmod := Nat.div_add_mod n 10
      have : (10 : Nat) ^ (natToDecimalAux fuel (n / 10)).length + 1 =
          10 ^ (natToDecimalAux fuel (n / 10)).length * 10 / 10 + 1 := by
        rw [Nat.mul_div_cancel _ (by omega)]
      ring_nf
      omega

lemma digitsToNat_natToDecimal (n : Nat) : digitsToNat (natToDecimal n) = n := by
  rw [natToDecimal, digitsToNat]
  rw [natToDecimalAux_foldl (n + 1) n 0 (by
    calc n < 10 ^ n := Nat.lt_pow_self (by omega) n
    _ ≤ 10 ^ (n + 1) := Nat.pow_le_pow_right (by omega) (by omega))]
  simp

/-- Head of the remainder after a digit group in the header pattern is not a
digit (so the greedy digit scan stops exactly there). -/
def nonDigitHead : JsStr → Prop
  | [] => True
  | c :: _ => isDigitChar c = false

lemma takeDigits_append {D rest : JsStr} (hD : ∀ c ∈ D, isDigitChar c = true)
    (hrest : nonDigitHead rest) : takeDigits (D ++ rest) = (D, rest) := by
  induction D with
  | nil =>
    simp only [List.nil_append]
    cases rest with
    | nil => rfl
    | cons c cs =>
      simp only [nonDigitHead] at hrest
      simp [takeDigits, hrest]
  | cons c D ih =>
    simp only [List.cons_append, takeDigits]
    rw [hD c (by simp)]
    simp [ih (fun x hx => hD x (by simp [hx]))]

lemma matchHeaderAt_hunkHeader (a b c d : Nat) :
    matchHeaderAt (hunkHeader a b c d) = some a := by
  rw [hunkHeader, matchHeaderAt]
  rw [takeDigits_append (natToDecimal_all_digits a) (by simp [nonDigitHead, isDigitChar])]
  simp only [natToDecimal_isEmpty a, Bool.false_eq_true, if_false, skipComma]
  rw [takeDigits_append (natToDecimal_all_digits b) (by simp [nonDigitHead, isDigitChar])]
  simp only
  rw [takeDigits_append (natToDecimal_all_digits c) (by simp [nonDigitHead, isDigitChar])]
  simp only [natToDecimal_isEmpty c, Bool.false_eq_true, if_false, skipComma]
  rw [takeDigits_append (natToDecimal_all_digits d) (by simp [nonDigitHead, isDigitChar])]
  simp [digitsToNat_natToDecimal]

lemma findHeader_hunkHeader (a b c d : Nat) :
    findHeader (hunkHeader a b c d) = some a := by
  have h := matchHeaderAt_hunkHeader a b c d
  rw [hunkHeader] at h ⊢
  rw [findHeader, h]

lemma splitNl_ne_nil (cs : JsStr) : splitNl cs ≠ [] := by
  induction cs with
  | nil => simp [splitNl]
  | cons c cs ih =>
    rw [splitNl]
    split
    · simp
    · cases h : splitNl cs with
      | nil => exact absurd h ih
      | cons l ls => simp

lemma splitNl_of_noNl {l : JsStr} (h : '\n' ∉ l) : splitNl l = [l] := by
  induction l with
  | nil => rfl
  | cons c cs ih =>
    have hc : ¬c = '\n' := fun e => h (e ▸ List.mem_cons_self c cs)
    rw [splitNl, if_neg hc, ih (fun hm => h (List.mem_cons_of_mem c hm))]

lemma splitNl_append_cons {l : JsStr} (h : '\n' ∉ l) (r : JsStr) :
    splitNl (l ++ '\n' :: r) = l :: splitNl r := by
  induction l with
  | nil => rw [List.nil_append, splitNl, if_pos rfl]
  | cons c cs ih =>
    have hc : ¬c = '\n' := fun e => h (e ▸ List.mem_cons_self c cs)
    rw [List.cons_append, splitNl, if_neg hc,
      ih (fun hm => h (List.mem_cons_of_mem c hm))]

lemma joinNl_splitNl (cs : JsStr) : joinNl (splitNl cs) = cs := by
  induction cs with
  | nil => rfl
  | cons c cs ih =>
    rw [splitNl]
    by_cases hc : c = '\n'
    · rw [if_pos hc, hc]
      cases h : splitNl cs with
      | nil => exact absurd h (splitNl_ne_nil cs)
      | cons s ss =>
        rw [h] at ih
        rw [joinNl, List.nil_append, ih]
    · rw [if_neg hc]
      cases h : splitNl cs with
      | nil => exact absurd h (splitNl_ne_nil cs)
      | cons l ls =>
        rw [h] at ih
        cases ls with
        | nil =>
          rw [joinNl] at ih
          simp [joinNl, ih]
        | cons l2 ls2 =>
          rw [joinNl] at ih
          simp only [joinNl, List.cons_append]
          rw [ih]

lemma splitNl_joinNl {LS : List JsStr} (h : ∀ l ∈ LS, '\n' ∉ l) (hne : LS ≠ []) :
    splitNl (joinNl LS) = LS := by
  induction LS with
  | nil => exact absurd rfl hne
  | cons l ls ih =>
    cases ls with
    | nil =>
      rw [joinNl, splitNl_of_noNl (h l (by simp))]
    | cons l2 ls2 =>
      rw [joinNl, splitNl_append_cons (h l (by simp))]
      rw [ih (fun x hx => h x (by simp [hx])) (by simp)]

lemma copyLoopAux_eq (O : List JsStr) :
    ∀ fuel idx, fuel + idx ≤ O.length →
      copyLoopAux O fuel idx = (O.drop idx).take fuel := by
  intro fuel
  induction fuel with
  | zero => intro idx _; simp [copyLoopAux]
  | succ fuel ih =>
    intro idx hlen
    have hpos : idx < O.length := by omega
    rw [copyLoopAux, ih (idx + 1) (by omega)]
    rw [jsGet, List.getD_eq_getElem O [] hpos]
    rw [List.drop_eq_getElem_cons hpos]
    rfl

lemma copyLoop_eq (O : List JsStr) (pos target : Nat) (hlen : target ≤ O.length) :
    copyLoop O pos target = (O.drop pos).take (target - pos) := by
  rw [copyLoop]
  by_cases hpt : pos ≤ target
  · exact copyLoopAux_eq O (target - pos) pos (by omega)
  · have : target - pos = 0 := by omega
    rw [this]
    simp [copyLoopAux]

lemma copyLoop_length (O : List JsStr) (pos : Nat) :
    copyLoop O pos O.length = O.drop pos := by
  rw [copyLoop_eq O pos O.length le_rfl]
  rw [show O.length - pos = (O.drop pos).length by simp]
  exact List.take_length _

lemma jsGet_of_getElem {O : List JsStr} {i : Nat} {s : JsStr} (h : O[i]? = some s) :
    jsGet O i = s := by
  rw [jsGet, List.getD_eq_getElem?_getD, h]
  rfl

lemma applyDiffLine_ctx {O : List JsStr} {i : Nat} {res : List JsStr} {s : JsStr}
    (h : O[i]? = some s) :
    applyDiffLine O ⟨i, false, res⟩ (' ' :: s) = ⟨i + 1, false, res ++ [s]⟩ := by
  simp [applyDiffLine, List.isPrefixOf, jsGet_of_getElem h]

lemma applyDiffLine_del {O : List JsStr} {i : Nat} {res : List JsStr} {s : JsStr}
    (h : List.isPrefixOf ['-', '-'] s = false) :
    applyDiffLine O ⟨i, false, res⟩ ('-' :: s) = ⟨i + 1, false, res⟩ := by
  simp [applyDiffLine, List.isPrefixOf, h]

lemma applyDiffLine_ins {O : List JsStr} {i : Nat} {res : List JsStr} {s : JsStr}
    (h : List.isPrefixOf ['+', '+'] s = false) :
    applyDiffLine O ⟨i, false, res⟩ ('+' :: s) = ⟨i, false, res ++ [s]⟩ := by
  simp [applyDiffLine, List.isPrefixOf, h]

lemma applyDiffLine_header {O : List JsStr} {pos : Nat} {hdr : Bool} {res : List JsStr}
    (a b c d : Nat) :
    applyDiffLine O ⟨pos, hdr, res⟩ (hunkHeader a b c d) =
      ⟨max pos (a - 1), false, res ++ copyLoop O pos (a - 1)⟩ := by
  have h1 : List.isPrefixOf ['-', '-', '-'] (hunkHeader a b c d) = false := by
    rw [hunkHeader]
    simp [List.isPrefixOf]
  have h2 : List.isPrefixOf ['+', '+', '+'] (hunkHeader a b c d) = false := by
    rw [hunkHeader]
    simp [List.isPrefixOf]
  have h3 : List.isPrefixOf ['@', '@'] (hunkHeader a b c d) = true := by
    rw [hunkHeader]
    simp [List.isPrefixOf]
  simp [applyDiffLine, h1, h2, h3, findHeader_hunkHeader]

lemma applyDiffLoop_append (O : List JsStr) (st : DState) (l1 l2 : List JsStr) :
    applyDiffLoop O st (l1 ++ l2) = applyDiffLoop O (applyDiffLoop O st l1) l2 := by
  induction l1 generalizing st with
  | nil => rfl
  | cons l ls ih => rw [List.cons_append, applyDiffLoop, applyDiffLoop, ih]

lemma applyDiffLoop_body (O : List JsStr) (body : List HunkLine) :
    ∀ i res, bodyMatches O i body = true → body.all lineOk = true →
      applyDiffLoop O ⟨i, false, res⟩ (body.map renderHunkLine) =
        ⟨i + oldLineCount body, false, res ++ bodyNewLines body⟩ := by
  induction body with
  | nil =>
    intro i res _ _
    simp [applyDiffLoop, oldLineCount, bodyNewLines]
  | cons hl rest ih =>
    intro i res hm hok
    rw [List.all_cons, Bool.and_eq_true] at hok
    cases hl with
    | ctx s =>
      rw [bodyMatches, Bool.and_eq_true, beq_iff_eq] at hm
      rw [List.map_cons, renderHunkLine, applyDiffLoop, applyDiffLine_ctx hm.1]
      rw [ih (i + 1) (res ++ [s]) hm.2 hok.2]
      rw [oldLineCount, bodyNewLines]
      simp [DState.mk.injEq]
      omega
    | del s =>
      rw [bodyMatches, Bool.and_eq_true] at hm
      have hdd : List.isPrefixOf ['-', '-'] s = false := by
        have := hok.1
        rw [lineOk, Bool.and_eq_true] at this
        simpa using this.2
      rw [List.map_cons, renderHunkLine, applyDiffLoop, applyDiffLine_del hdd]
      rw [ih (i + 1) res hm.2 hok.2]
      rw [oldLineCount, bodyNewLines]
      simp [DState.mk.injEq]
      omega
    | ins s =>
      rw [bodyMatches] at hm
      have hii : List.isPrefixOf ['+', '+'] s = false := by
        have := hok.1
        rw [lineOk, Bool.and_eq_true] at this
        simpa using this.2
      rw [List.map_cons, renderHunkLine, applyDiffLoop, applyDiffLine_ins hii]
      rw [ih i (res ++ [s]) hm hok.2]
      rw [oldLineCount, bodyNewLines]
      simp [DState.mk.injEq]

lemma applyDiffLoop_hunks (O : List JsStr) (hs : List Hunk) :
    ∀ pos res hdr shift, hunksValidFrom O pos hs = true →
      ∃ bfin, applyDiffLoop O ⟨pos, hdr, res⟩ (renderHunksLines shift hs) =
        ⟨hunksEndPos pos hs, bfin, res ++ hunksOut O pos hs⟩ := by
  induction hs with
  | nil =>
    intro pos res hdr shift _
    exact ⟨hdr, by simp [renderHunksLines, applyDiffLoop, hunksEndPos, hunksOut]⟩
  | cons h hs ih =>
    intro pos res hdr shift hv
    rw [hunksValidFrom] at hv
    simp only [Bool.and_eq_true, decide_eq_true_eq] at hv
    obtain ⟨⟨⟨⟨⟨h1, h2⟩, h3⟩, h4⟩, h5⟩, h6⟩ := hv
    rw [renderHunksLines, renderHunk, List.cons_append, applyDiffLoop]
    rw [applyDiffLine_header, Nat.max_eq_right h2]
    rw [applyDiffLoop_append]
    rw [applyDiffLoop_body O h.body (h.oldStart - 1) _ h5 h4]
    obtain ⟨bfin, hrec⟩ := ih (h.oldStart - 1 + oldLineCount h.body)
      (res ++ copyLoop O pos (h.oldStart - 1) ++ bodyNewLines h.body) false
      (shift + (newLineCount h.body : Int) - (oldLineCount h.body : Int)) h6
    refine ⟨bfin, ?_⟩
    rw [hrec, hunksEndPos, hunksOut]
    rw [copyLoop_eq O pos (h.oldStart - 1) h3]
    simp [List.append_assoc]

lemma natToDecimal_not_nl (n : Nat) : '\n' ∉ natToDecimal n := by
  intro hm
  have := natToDecimal_all_digits n _ hm
  simp [isDigitChar] at this

lemma hunkHeader_noNl (a b c d : Nat) : '\n' ∉ hunkHeader a b c d := by
  intro hm
  rw [hunkHeader] at hm
  have hcase : '\n' = '@' ∨ '\n' = ' ' ∨ '\n' = '-' ∨ '\n' = '+' ∨ '\n' = ',' ∨
      '\n' ∈ natToDecimal a ∨ '\n' ∈ natToDecimal b ∨ '\n' ∈ natToDecimal c ∨
      '\n' ∈ natToDecimal d := by
    simp only [List.mem_cons, List.mem_append] at hm
    tauto
  rcases hcase with h | h | h | h | h | h | h | h | h
  · exact absurd h (by decide)
  · exact absurd h (by decide)
  · exact absurd h (by decide)
  · exact absurd h (by decide)
  · exact absurd h (by decide)
  · exact natToDecimal_not_nl a h
  · exact natToDecimal_not_nl b h
  · exact natToDecimal_not_nl c h
  · exact natToDecimal_not_nl d h

lemma renderHunkLine_noNl {hl : HunkLine} (h : lineOk hl = true) :
    '\n' ∉ renderHunkLine hl := by
  cases hl with
  | ctx s =>
    rw [lineOk, Bool.not_eq_true'] at h
    intro hm
    rcases List.mem_cons.mp hm with he | hs
    · exact absurd he (by decide)
    · have hc : s.contains '\n' = true := by simpa using hs
      rw [h] at hc
      exact absurd hc (by simp)
  | del s =>
    rw [lineOk, Bool.and_eq_true, Bool.not_eq_true'] at h
    intro hm
    rcases List.mem_cons.mp hm with he | hs
    · exact absurd he (by decide)
    · have hc : s.contains '\n' = true := by simpa using hs
      rw [h.1] at hc
      exact absurd hc (by simp)
  | ins s =>
    rw [lineOk, Bool.and_eq_true, Bool.not_eq_true'] at h
    intro hm
    rcases List.mem_cons.mp hm with he | hs
    · exact absurd he (by decide)
    · have hc : s.contains '\n' = true := by simpa using hs
      rw [h.1] at hc
      exact absurd hc (by simp)

lemma hunksValid_all_lineOk (O : List JsStr) :
    ∀ pos hs, hunksValidFrom O pos hs = true → ∀ h ∈ hs, h.body.all lineOk = true := by
  intro pos hs
  induction hs generalizing pos with
  | nil => intro _ h hm; simp at hm
  | cons h1 hs ih =>
    intro hv h hm
    rw [hunksValidFrom] at hv
    simp only [Bool.and_eq_true, decide_eq_true_eq] at hv
    rcases List.mem_cons.mp hm with he | ht
    · subst he
      exact hv.1.1.2
    · exact ih _ hv.2 h ht

lemma renderHunksLines_noNl :
    ∀ (hs : List Hunk) (shift : Int), (∀ h ∈ hs, h.body.all lineOk = true) →
      ∀ l ∈ renderHunksLines shift hs, '\n' ∉ l := by
  intro hs
  induction hs with
  | nil => intro shift _ l hl; simp [renderHunksLines] at hl
  | cons h hs ih =>
    intro shift hok l hl
    rw [renderHunksLines, renderHunk] at hl
    rcases List.mem_append.mp hl with hin | hin
    · rcases List.mem_cons.mp hin with he | hb
      · subst he
        exact hunkHeader_noNl _ _ _ _
      · obtain ⟨hlx, hmem, rfl⟩ := List.mem_map.mp hb
        have hall := hok h (by simp)
        rw [List.all_eq_true] at hall
        exact renderHunkLine_noNl (hall hlx hmem)
    · exact ih _ (fun x hx => hok x (by simp [hx])) l hin

lemma renderHunksLines_ne_nil (h : Hunk) (hs : List Hunk) (shift : Int) :
    renderHunksLines shift (h :: hs) ≠ [] := by
  rw [renderHunksLines, renderHunk]
  simp

lemma idealLinesFrom_decomp (O : List JsStr) :
    ∀ hs pos, idealLinesFrom O pos hs = hunksOut O pos hs ++ O.drop (hunksEndPos pos hs) := by
  intro hs
  induction hs with
  | nil => intro pos; simp [idealLinesFrom, hunksOut, hunksEndPos]
  | cons h hs ih =>
    intro pos
    rw [idealLinesFrom, hunksOut, hunksEndPos, ih]
    simp [List.append_assoc]

lemma applyDiff_roundTrip_core (orig : String) (hs : List Hunk)
    (hv : hunksValidFrom (splitNl orig.data) 0 hs = true) :
    applyDiffChars orig.data (joinNl (renderHunksLines 0 hs)) =
      joinNl (idealLinesFrom (splitNl orig.data) 0 hs) := by
  cases hs with
  | nil =>
    rw [applyDiffChars]
    simp only [renderHunksLines, joinNl]
    rw [show splitNl ([] : JsStr) = [[]] from rfl]
    rw [applyDiffLoop, applyDiffLoop]
    rw [show applyDiffLine (splitNl orig.data) ⟨0, true, []⟩ [] = ⟨0, true, []⟩ from rfl]
    rw [copyLoop_length]
    simp [idealLinesFrom]
  | cons h1 hs1 =>
    rw [applyDiffChars]
    have hok := hunksValid_all_lineOk (splitNl orig.data) 0 (h1 :: hs1) hv
    rw [splitNl_joinNl (renderHunksLines_noNl (h1 :: hs1) 0 hok)
      (renderHunksLines_ne_nil h1 hs1 0)]
    obtain ⟨bfin, hloop⟩ :=
      applyDiffLoop_hunks (splitNl orig.data) (h1 :: hs1) 0 [] true 0 hv
    rw [hloop]
    rw [copyLoop_length]
    rw [idealLinesFrom_decomp]
    simp

/-- Round-trip core result lifted to the string-level entry points. -/
lemma applyDiff_renderDiff (orig : String) (hs : List Hunk)
    (hv : hunksValidFrom (splitNl orig.data) 0 hs = true) :
    applyDiff orig (renderDiff hs) = some (modifiedContent orig hs) := by
  rw [applyDiff, renderDiff, modifiedContent]
  rw [show (String.mk (joinNl (renderHunksLines 0 hs))).data =
    joinNl (renderHunksLines 0 hs) from rfl]
  rw [applyDiff_roundTrip_core orig hs hv]

lemma lastCloseSeg_none {ys : JsStr} (h : '}' ∉ ys) : lastCloseSeg ys = none := by
  induction ys with
  | nil => rfl
  | cons c cs ih =>
    have hcne : ¬c = '}' := fun he => h (List.mem_cons.mpr (Or.inl he.symm))
    rw [lastCloseSeg, ih (fun hm => h (List.mem_cons_of_mem c hm)), if_neg hcne]

lemma lastCloseSeg_append {xs ys : JsStr} (hys : '}' ∉ ys) :
    lastCloseSeg (xs ++ '}' :: ys) = some (xs ++ ['}']) := by
  induction xs with
  | nil =>
    rw [List.nil_append, lastCloseSeg, lastCloseSeg_none hys]
    simp
  | cons c cs ih =>
    rw [List.cons_append, lastCloseSeg, ih]
    rfl

lemma braceSpan_decomp {pre mid post : JsStr} (hpre : '{' ∉ pre) (hpost : '}' ∉ post) :
    braceSpan (pre ++ '{' :: (mid ++ '}' :: post)) = some ('{' :: (mid ++ ['}'])) := by
  induction pre with
  | nil =>
    rw [List.nil_append, braceSpan, if_pos rfl, lastCloseSeg_append hpost]
  | cons c cs ih =>
    have hcne : ¬c = '{' := fun he => hpre (List.mem_cons.mpr (Or.inl he.symm))
    rw [List.cons_append, braceSpan, if_neg hcne]
    exact ih (fun hm => hpre (List.mem_cons_of_mem c hm))

lemma braceSpan_none {cs : JsStr} (h : ∀ a b, cs = a ++ '{' :: b → '}' ∉ b) :
    braceSpan cs = none := by
  induction cs with
  | nil => rfl
  | cons c cs ih =>
    rw [braceSpan]
    by_cases hc : c = '{'
    · subst hc
      rw [if_pos rfl, lastCloseSeg_none (h [] cs rfl)]
      exact ih (fun a b hab => h ('{' :: a) b (by simp [hab]))
    · rw [if_neg hc]
      exact ih (fun a b hab => h (c :: a) b (by simp [hab]))

lemma parseJsonOutput_inv {J : Type} {P : JsStr → Option J} {stdout : JsStr} {o : J}
    (h : parseJsonOutput P stdout = some o) : ∃ s, P s = some o := by
  rw [parseJsonOutput] at h
  cases hb : braceSpan stdout with
  | none =>
    rw [hb] at h
    exact ⟨stdout, h⟩
  | some sp =>
    rw [hb] at h
    exact ⟨sp, h⟩

lemma buildSuccessResult_success (o : RectorJsonOutput) :
    (buildSuccessResult o).success = true := by
  rw [buildSuccessResult]
  cases h : o.file_diffs with
  | none => rfl
  | some l => cases l <;> rfl

lemma buildSuccessResult_changedFiles (o : RectorJsonOutput) :
    (buildSuccessResult o).changedFiles = o.totals.changed_files := by
  rw [buildSuccessResult]
  cases h : o.file_diffs with
  | none => rfl
  | some l => cases l <;> rfl

lemma buildSuccessResult_no_diffs {o : RectorJsonOutput} (h : o.file_diffs.getD [] = []) :
    (buildSuccessResult o).diff = none ∧ (buildSuccessResult o).appliedRectors = none := by
  rw [buildSuccessResult]
  cases hfd : o.file_diffs with
  | none => exact ⟨rfl, rfl⟩
  | some l =>
    cases l with
    | nil => exact ⟨rfl, rfl⟩
    | cons fd fds =>
      rw [hfd] at h
      simp at h

lemma execPhase_cases (env : RectorEnv) (exe : String) (args : List String) :
    (∃ msg, (execPhase env exe args).result = failResult msg) ∨
    (∃ s output, env.jsonParse s = some output ∧
      (execPhase env exe args).result = buildSuccessResult output) := by
  cases hex : env.exec with
  | ok stdout =>
    cases hp : parseJsonOutput env.jsonParse stdout with
    | none =>
      refine Or.inl ⟨"Failed to parse Rector output", ?_⟩
      simp only [execPhase, hex, hp]
    | some output =>
      obtain ⟨s, hs⟩ := parseJsonOutput_inv hp
      refine Or.inr ⟨s, output, hs, ?_⟩
      simp only [execPhase, hex, hp]
  | err enoent stdoutOpt message stderr =>
    cases enoent with
    | true =>
      refine Or.inl ⟨"Rector executable not found: " ++ env.executablePath, ?_⟩
      simp only [execPhase, hex, if_true]
    | false =>
      cases stdoutOpt with
      | none =>
        refine Or.inl ⟨if message != "" then message
          else if stderr != "" then stderr else "Unknown error", ?_⟩
        simp only [execPhase, hex, Bool.false_eq_true, if_false]
      | some s =>
        by_cases hse : s.isEmpty
        · refine Or.inl ⟨if message != "" then message
            else if stderr != "" then stderr else "Unknown error", ?_⟩
          simp only [execPhase, hex, Bool.false_eq_true, if_false, hse, if_true]
        · cases hp : parseJsonOutput env.jsonParse s with
          | none =>
            refine Or.inl ⟨if message != "" then message
              else if stderr != "" then stderr else "Unknown error", ?_⟩
            simp only [execPhase, hex, Bool.false_eq_true, if_false, hse, hp]
          | some output =>
            obtain ⟨s2, hs2⟩ := parseJsonOutput_inv hp
            refine Or.inr ⟨s2, output, hs2, ?_⟩
            simp only [execPhase, hex, Bool.false_eq_true, if_false, hse, hp]

lemma processFile_cases (env : RectorEnv) (filePath : String) (dryRun : Bool) :
    (∃ msg, (processFile env filePath dryRun).result = failResult msg) ∨
    (∃ s output, env.jsonParse s = some output ∧
      (processFile env filePath dryRun).result = buildSuccessResult output) := by
  rw [processFile]
  by_cases hc : env.configPath == ""
  · rw [if_pos hc]
    exact execPhase_cases env _ _
  · rw [if_neg hc]
    by_cases he : env.fsExists (resolvedConfigPath env)
    · rw [if_pos he]
      exact execPhase_cases env _ _
    · rw [if_neg he]
      exact Or.inl ⟨_, rfl⟩

/-- Invariant of the confirmation-session model: the callback has run at
most once, and not at all while the decision continuation has not run. -/
def sessionInv (s : SessionState) : Prop :=
  s.applyCalls ≤ 1 ∧ (s.continuationRan = false → s.applyCalls = 0)

lemma sessionStep_inv {s : SessionState} (ev : SessionEv) (h : sessionInv s) :
    sessionInv (sessionStep s ev) := by
  cases ev with
  | clickApply =>
    rw [sessionStep, handleApplyChoice]
    split
    · exact h
    · split
      · exact ⟨h.1, h.2⟩
      · exact h
  | clickDiscard =>
    rw [sessionStep, handleDiscardChoice]
    split
    · exact ⟨h.1, h.2⟩
    · exact h
  | runContinuation =>
    rw [sessionStep, runContinuationStep]
    by_cases hcr : s.continuationRan
    · rw [if_pos hcr]
      exact h
    · rw [if_neg hcr]
      have h0 : s.applyCalls = 0 := h.2 (by simpa using hcr)
      cases hrv : s.resolvedValue with
      | none => exact h
      | some dc =>
        cases dc with
        | apply =>
          by_cases hap : s.isApplying
          · rw [if_pos hap]
            exact ⟨h.1, by intro hfalse; simp at hfalse⟩
          · rw [if_neg hap]
            refine ⟨by simp [h0], ?_⟩
            intro hfalse
            simp at hfalse
        | discard => exact ⟨h.1, by intro hfalse; simp at hfalse⟩
  | finishApply =>
    rw [sessionStep, finishApplyStep]
    split
    · exact ⟨h.1, h.2⟩
    · exact h

lemma runSession_inv (evs : List SessionEv) :
    ∀ s, sessionInv s → sessionInv (runSession s evs) := by
  induction evs with
  | nil => intro s h; exact h
  | cons ev evs ih =>
    intro s h
    exact ih _ (sessionStep_inv ev h)

lemma isPrefixOf_triple_of_single {c : Char} {l : JsStr}
    (h : List.isPrefixOf [c] l = false) : List.isPrefixOf [c, c, c] l = false := by
  cases l with
  | nil => rfl
  | cons x t =>
    have hcx : (c == x) = false := by simpa [List.isPrefixOf] using h
    simp [List.isPrefixOf, hcx]

/-- Hunks of the C1 counterexample: the section 4.3 diff of original
`"a"` against modified `"++b"` — one hunk deleting the single line and
inserting the line `++b`, whose rendering necessarily begins with `+++`. -/
def c1Hunks : List Hunk := [⟨1, [HunkLine.del ['a'], HunkLine.ins ['+', '+', 'b']]⟩]

/-- C1 counterexample: for original `O = "a"` and modified `M = "++b"`, the
unified diff of `O` against `M` in the spec section 4.3 format is
`@@ -1,1 +1,1 @@\n-a\n+++b`, whose modified content is `"++b"`; but
`DiffViewManager.applyDiff` skips the `+++b` line as a file header and
returns `""`, not `M` — refuting the unrestricted round-trip law. -/
theorem c1_roundTrip_counterexample :
    renderDiff c1Hunks = "@@ -1,1 +1,1 @@\n-a\n+++b" ∧
    modifiedContent "a" c1Hunks = "++b" ∧
    applyDiff "a" (renderDiff c1Hunks) = some "" ∧
    applyDiff "a" (renderDiff c1Hunks) ≠ some (modifiedContent "a" c1Hunks) :=
  ⟨by decide, by decide, by decide, by decide⟩

/-- C1 (amended): for every original content and every hunk-sequence diff of
it in the spec section 4.3 format — hunks in order, in range, context and
deleted lines matching the original — whose deleted lines do not themselves
start with `--` and whose inserted lines do not themselves start with `++`
(so no body line renders as a `---`/`+++` file-header line),
`DiffViewManager.applyDiff` reconstructs exactly the modified content the
diff denotes (round-trip law). -/
theorem c1_roundTrip (orig : String) (hs : List Hunk)
    (hv : hunksValidFrom (splitNl orig.data) 0 hs = true) :
    applyDiff orig (renderDiff hs) = some (modifiedContent orig hs) :=
  applyDiff_renderDiff orig hs hv

/-- Hunks of the C1 witness: replace the middle line of `a\nb\nc`. -/
def c1WitnessHunks : List Hunk := [⟨2, [HunkLine.del ['b'], HunkLine.ins ['B']]⟩]

/-- C1 witness: the round-trip theorem applied to a concrete diff. -/
theorem c1_roundTrip_witness :
    hunksValidFrom (splitNl ("a\nb\nc").data) 0 c1WitnessHunks = true ∧
    applyDiff "a\nb\nc" (renderDiff c1WitnessHunks) =
      some (modifiedContent "a\nb\nc" c1WitnessHunks) :=
  ⟨by decide, c1_roundTrip "a\nb\nc" c1WitnessHunks (by decide)⟩

/-- C2 counterexample: on original `"foo\n"` and the single-hunk diff
`@@ -1,1 +1,2 @@\n-foo\n+bar\n+baz\n`, `applyDiff` returns
`"bar\nbaz\n"` — the trailing blank diff line (from the diff's final
newline) consumes the original's trailing blank line and re-emits it — not
the claimed `"bar\nbaz"`. -/
theorem c2_concrete_counterexample :
    applyDiff "foo\n" "@@ -1,1 +1,2 @@\n-foo\n+bar\n+baz\n" = some "bar\nbaz\n" ∧
    ("bar\nbaz\n" : String) ≠ "bar\nbaz" :=
  ⟨by decide, by decide⟩

/-- C2 (amended): `applyDiff "foo\n"` on the hunk
`@@ -1,1 +1,2 @@\n-foo\n+bar\n+baz\n` returns exactly `"bar\nbaz\n"`. -/
theorem c2_concrete :
    applyDiff "foo\n" "@@ -1,1 +1,2 @@\n-foo\n+bar\n+baz\n" = some "bar\nbaz\n" := by
  decide

/-- C3 counterexample: on the malformed diff `"not a diff"` (no hunk
header), `applyDiff` does not return `null` — it returns the original
content unchanged — and `showDiff`'s guard therefore proceeds to create a
session rather than stopping with a warning. -/
theorem c3_malformed_counterexample :
    applyDiff "foo" "not a diff" = some "foo" ∧
    applyDiff "foo" "not a diff" ≠ none ∧
    showDiffCreatesSession "foo" "not a diff" = true :=
  ⟨by decide, by decide, by decide⟩

/-- C3 (amended): `applyDiff` is total — for every pair of input strings it
returns a string, never `null` (its `catch` is unreachable, so a malformed
diff yields a reconstructed string, e.g. the unchanged original) — and
`showDiff` declines to create a scratch artifact and session exactly when
the reconstruction is the empty string (the falsiness guard), not on
malformed diffs as such. -/
theorem c3_total_never_null (o d : String) :
    (applyDiff o d).isSome = true ∧
    (showDiffCreatesSession o d = true ↔ applyDiff o d ≠ some "") := by
  refine ⟨rfl, ?_⟩
  simp only [showDiffCreatesSession, applyDiff]
  simp [bne_iff_ne]

/-- C4: inside a hunk (`inHeader = false`), a diff line whose first
character is a space emits the original line at the cursor and advances the
cursor by one; a blank diff line (every character whitespace, not starting
with a space, marker, or `@@`) emits one blank context line and advances
the cursor exactly when the cursor is in range and the original line at the
cursor is itself blank, and otherwise changes nothing. -/
theorem c4_context_and_blank (orig : List JsStr) (st : DState) (line : JsStr)
    (hhd : st.inHeader = false) :
    (List.isPrefixOf [' '] line = true →
      applyDiffLine orig st line =
        { st with idx := st.idx + 1, res := st.res ++ [jsGet orig st.idx] }) ∧
    (isBlankLine line = true → List.isPrefixOf [' '] line = false →
      List.isPrefixOf ['-'] line = false → List.isPrefixOf ['+'] line = false →
      List.isPrefixOf ['@', '@'] line = false →
      applyDiffLine orig st line =
        if st.idx < orig.length && isBlankLine (jsGet orig st.idx) then
          { st with idx := st.idx + 1, res := st.res ++ [[]] }
        else st) := by
  constructor
  · intro hsp
    obtain ⟨t, rfl⟩ : ∃ t, line = ' ' :: t := by
      cases line with
      | nil => simp [List.isPrefixOf] at hsp
      | cons c t =>
        have hc : ' ' = c := by simpa [List.isPrefixOf] using hsp
        exact ⟨t, by rw [← hc]⟩
    simp [applyDiffLine, List.isPrefixOf, hhd]
  · intro hb hsp hm hp hat
    have hm3 := isPrefixOf_triple_of_single hm
    have hp3 := isPrefixOf_triple_of_single hp
    simp [applyDiffLine, hm3, hp3, hat, hsp, hm, hp, hhd, hb]

/-- C4 witness: the context and blank branches at concrete inputs. -/
theorem c4_context_and_blank_witness :
    applyDiffLine [['x']] ⟨0, false, []⟩ [' ', 'x'] = ⟨1, false, [['x']]⟩ ∧
    applyDiffLine [['x']] ⟨0, false, []⟩ [] = ⟨0, false, []⟩ := by
  have h1 := (c4_context_and_blank [['x']] ⟨0, false, []⟩ [' ', 'x'] rfl).1 (by decide)
  have h2 := (c4_context_and_blank [['x']] ⟨0, false, []⟩ [] rfl).2 (by decide)
    (by decide) (by decide) (by decide) (by decide)
  exact ⟨h1.trans (by decide), h2.trans (by decide)⟩

/-- C5 (amended): `RectorRunner.parseJsonOutput` first looks for a greedy
brace span; when one exists — the input decomposes as a brace-free prefix,
a first `\x7b`, arbitrary middle, a last `\x7d` and a close-brace-free
suffix — only that span is handed to `JSON.parse` and the whole-output
parse is never attempted; only when no span exists at all is the entire
output parsed.  `P` abstracts `JSON.parse` (`none` = exception). -/
theorem c5_parse_strategy {J : Type} (P : JsStr → Option J) (pre mid post cs : JsStr) :
    ('{' ∉ pre → '}' ∉ post →
      parseJsonOutput P (pre ++ '{' :: (mid ++ '}' :: post)) = P ('{' :: (mid ++ ['}']))) ∧
    ((∀ a b, cs = a ++ '{' :: b → '}' ∉ b) → parseJsonOutput P cs = P cs) := by
  constructor
  · intro hpre hpost
    rw [parseJsonOutput, braceSpan_decomp hpre hpost]
  · intro h
    rw [parseJsonOutput, braceSpan_none h]

/-- C5 witness: the parse strategy at concrete inputs. -/
theorem c5_parse_strategy_witness :
    parseJsonOutput (fun s : JsStr => some s.length) (['x'] ++ '{' :: (['a'] ++ '}' :: ['y'])) =
      some 3 ∧
    parseJsonOutput (fun s : JsStr => some s.length) ['z'] = some 1 := by
  have h := c5_parse_strategy (fun s : JsStr => some s.length) ['x'] ['a'] ['y'] ['z']
  constructor
  · exact (h.1 (by decide) (by decide)).trans (by decide)
  · refine (h.2 ?_).trans (by decide)
    intro a b hab
    cases a <;> simp at hab

/-- Raw output of the C5 counterexample: the character sequence of the JSON
text `["\x7b", "\x7d"]`, a valid JSON array of two one-character strings. -/
def c5Stdout : JsStr := "[\x22\x7b\x22, \x22\x7d\x22]".data

/-- `JSON.parse` restricted to the two strings the C5 counterexample feeds
it: the whole output is valid JSON (an array), while its greedy brace span
`\x7b\x22, \x22\x7d` is not valid JSON and throws (modelled `none`). -/
def c5JsonParse : JsStr → Option Unit :=
  fun s => if s = c5Stdout then some () else none

/-- C5 counterexample: on this output a brace span exists and fails to
parse, the entire output would parse, yet `parseJsonOutput` returns `null`
without ever attempting the whole-output parse — refuting the claim that
the whole-output parse is still attempted before returning `null`. -/
theorem c5_counterexample :
    braceSpan c5Stdout = some ("\x7b\x22, \x22\x7d".data) ∧
    c5JsonParse ("\x7b\x22, \x22\x7d".data) = none ∧
    c5JsonParse c5Stdout = some () ∧
    parseJsonOutput c5JsonParse c5Stdout = none := by
  refine ⟨by decide, by decide, by decide, by decide⟩

/-- C6: whenever the spawned process throws a non-`ENOENT` error carrying
non-empty captured stdout that parses to result JSON, `processFile` reports
success with that JSON's changed-file count (the tolerant fallback for the
tool's non-zero exit on success), provided the invocation got past config
validation (no explicit config, or the resolved explicit config exists). -/
theorem c6_nonzero_exit_success (env : RectorEnv) (filePath : String) (dryRun : Bool)
    (s : JsStr) (msg stderr : String) (output : RectorJsonOutput)
    (hcfg : env.configPath = "" ∨ env.fsExists (resolvedConfigPath env) = true)
    (hexec : env.exec = ExecOutcome.err false (some s) msg stderr)
    (hs : s ≠ [])
    (hparse : parseJsonOutput env.jsonParse s = some output) :
    (processFile env filePath dryRun).result.success = true ∧
    (processFile env filePath dryRun).result.changedFiles = output.totals.changed_files := by
  have hse : s.isEmpty = false := by
    cases s with
    | nil => exact absurd rfl hs
    | cons c cs => rfl
  have hep : ∀ exe args, (execPhase env exe args).result = buildSuccessResult output := by
    intro exe args
    simp only [execPhase, hexec, Bool.false_eq_true, if_false, hse, hparse]
  have hpf : (processFile env filePath dryRun).result = buildSuccessResult output := by
    rw [processFile]
    by_cases hc : env.configPath == ""
    · rw [if_pos hc]
      exact hep _ _
    · rcases hcfg with hceq | he
      · exact absurd (by simp [hceq]) hc
      · rw [if_neg hc, if_pos he]
        exact hep _ _
  rw [hpf]
  exact ⟨buildSuccessResult_success output, buildSuccessResult_changedFiles output⟩

/-- Parsed output of the C6 witness: two changed files, no diff records. -/
def c6Output : RectorJsonOutput := ⟨⟨2, 0⟩, none⟩

/-- Environment of the C6 witness: the process throws with exit output
`\x7bok\x7d` attached, which parses to `c6Output`. -/
def c6Env : RectorEnv :=
  { executablePath := "rector", configPath := "", clearCache := false,
    hasWorkspace := false, workspaceRoot := "",
    resolvePath := fun _ p => p, dirname := fun d => d,
    joinPath := fun a b => a ++ "/" ++ b, fsExists := fun _ => false,
    dirFuel := 1,
    jsonParse := fun s => if s = "\x7bok\x7d".data then some c6Output else none,
    exec := ExecOutcome.err false (some ("\x7bok\x7d".data)) "exit 1" "" }

/-- C6 witness: the tolerant-fallback theorem at a concrete invocation with
`changed_files = 2`. -/
theorem c6_nonzero_exit_success_witness :
    (processFile c6Env "f.php" true).result.success = true ∧
    (processFile c6Env "f.php" true).result.changedFiles = 2 := by
  have h := c6_nonzero_exit_success c6Env "f.php" true ("\x7bok\x7d".data) "exit 1" ""
    c6Output (Or.inl rfl) rfl (by decide) (by decide)
  exact ⟨h.1, h.2⟩

/-- C7: an invocation with a non-empty configured config path whose
resolved form does not exist returns a failed result whose error names that
resolved path, and `execFile` is never reached (`spawned = none`). -/
theorem c7_missing_config (env : RectorEnv) (filePath : String) (dryRun : Bool)
    (hc : env.configPath ≠ "") (he : env.fsExists (resolvedConfigPath env) = false) :
    (processFile env filePath dryRun).result.success = false ∧
    (processFile env filePath dryRun).result.error =
      some ("Config file not found: " ++ resolvedConfigPath env) ∧
    (processFile env filePath dryRun).spawned = none := by
  have hpf : processFile env filePath dryRun =
      { result := failResult ("Config file not found: " ++ resolvedConfigPath env),
        spawned := none } := by
    rw [processFile, if_neg (by simpa using hc), if_neg (by simp [he])]
  rw [hpf]
  exact ⟨rfl, rfl, rfl⟩

/-- Environment of the C7 witness: an explicit relative config path that
resolves against the workspace root but does not exist on disk. -/
def c7Env : RectorEnv :=
  { executablePath := "rector", configPath := "./rector.php", clearCache := false,
    hasWorkspace := true, workspaceRoot := "/ws",
    resolvePath := fun a b => a ++ "/" ++ b, dirname := fun d => d,
    joinPath := fun a b => a ++ "/" ++ b, fsExists := fun _ => false,
    dirFuel := 1, jsonParse := fun _ => none,
    exec := ExecOutcome.ok [] }

/-- C7 witness: the missing-config theorem at a concrete invocation (the
resolved path is left symbolic because `String.startsWith` does not reduce
definitionally; the environment is fully concrete). -/
theorem c7_missing_config_witness :
    (processFile c7Env "f.php" false).result.success = false ∧
    (processFile c7Env "f.php" false).result.error =
      some ("Config file not found: " ++ resolvedConfigPath c7Env) ∧
    (processFile c7Env "f.php" false).spawned = none :=
  c7_missing_config c7Env "f.php" false (by decide) rfl

/-- Parsed output of the C8 counterexample: zero changed files but a
non-empty `file_diffs` array. -/
def c8Output : RectorJsonOutput := ⟨⟨0, 0⟩, some [⟨"a.php", "dd", ["R"]⟩]⟩

/-- Environment of the C8 counterexample: a clean exit whose stdout parses
to `c8Output`. -/
def c8Env : RectorEnv :=
  { executablePath := "rector", configPath := "", clearCache := false,
    hasWorkspace := false, workspaceRoot := "",
    resolvePath := fun _ p => p, dirname := fun d => d,
    joinPath := fun a b => a ++ "/" ++ b, fsExists := fun _ => false,
    dirFuel := 1,
    jsonParse := fun s => if s = "\x7bz\x7d".data then some c8Output else none,
    exec := ExecOutcome.ok ("\x7bz\x7d".data) }

/-- C8 counterexample: when the tool's JSON reports `changed_files = 0` yet
carries a non-empty `file_diffs` array, `processFile` returns
`success = true`, `changedFiles = 0` and a present `diff`/`appliedRectors`
— refuting the unconditional absence clause of the claimed invariant. -/
theorem c8_invariant_counterexample :
    (processFile c8Env "f.php" true).result.success = true ∧
    (processFile c8Env "f.php" true).result.changedFiles = 0 ∧
    (processFile c8Env "f.php" true).result.diff = some "dd" ∧
    (processFile c8Env "f.php" true).result.appliedRectors = some ["R"] := by
  refine ⟨by decide, by decide, by decide, by decide⟩

/-- C8 (amended): every result of `processFile` satisfies — failure implies
`changedFiles = 0` with an error message set; success with zero changed
files implies `diff` and `appliedRectors` absent, provided every JSON
output the tool can report with a non-empty `file_diffs` list also reports
a non-zero changed-file count. -/
theorem c8_result_invariant (env : RectorEnv) (filePath : String) (dryRun : Bool)
    (hwf : ∀ s o, env.jsonParse s = some o → o.file_diffs.getD [] ≠ [] →
      o.totals.changed_files ≠ 0) :
    ((processFile env filePath dryRun).result.success = false →
      (processFile env filePath dryRun).result.changedFiles = 0 ∧
      (processFile env filePath dryRun).result.error ≠ none) ∧
    ((processFile env filePath dryRun).result.success = true →
      (processFile env filePath dryRun).result.changedFiles = 0 →
      (processFile env filePath dryRun).result.diff = none ∧
      (processFile env filePath dryRun).result.appliedRectors = none) := by
  rcases processFile_cases env filePath dryRun with ⟨msg, hf⟩ | ⟨s, output, hjs, hb⟩
  · constructor
    · intro _
      rw [hf]
      exact ⟨rfl, by simp [failResult]⟩
    · intro hsucc _
      rw [hf] at hsucc
      simp [failResult] at hsucc
  · constructor
    · intro hfail
      rw [hb, buildSuccessResult_success] at hfail
      simp at hfail
    · intro _ hch
      rw [hb] at hch ⊢
      rw [buildSuccessResult_changedFiles] at hch
      have hfd : output.file_diffs.getD [] = [] := by
        by_contra hne
        exact hwf s output hjs hne hch
      exact buildSuccessResult_no_diffs hfd

/-- Environment of the C8 witness: parsing always fails, so the invocation
ends in the parse-failure result. -/
def c8wEnv : RectorEnv :=
  { executablePath := "rector", configPath := "", clearCache := false,
    hasWorkspace := false, workspaceRoot := "",
    resolvePath := fun _ p => p, dirname := fun d => d,
    joinPath := fun a b => a ++ "/" ++ b, fsExists := fun _ => false,
    dirFuel := 1, jsonParse := fun _ => none,
    exec := ExecOutcome.ok [] }

/-- C8 witness: the invariant theorem applied at a concrete failing
invocation. -/
theorem c8_result_invariant_witness :
    (processFile c8wEnv "f.php" true).result.changedFiles = 0 ∧
    (processFile c8wEnv "f.php" true).result.error ≠ none := by
  have h := c8_result_invariant c8wEnv "f.php" true
    (fun s o hso => absurd hso (by simp [c8wEnv]))
  exact h.1 rfl

/-- C9: over every interleaving of Apply clicks, Discard clicks, the
decision continuation and callback completion, a session started in the
pending state invokes the apply callback at most once; and the specific
trace of two rapid Apply clicks followed by the continuation invokes it
exactly once. -/
theorem c9_single_flight_apply :
    (∀ evs : List SessionEv, (runSession initialSession evs).applyCalls ≤ 1) ∧
    (runSession initialSession
      [SessionEv.clickApply, SessionEv.clickApply, SessionEv.runContinuation]).applyCalls = 1 := by
  constructor
  · intro evs
    exact (runSession_inv evs initialSession ⟨Nat.zero_le 1, fun _ => rfl⟩).1
  · decide

/-- Environment of the C10 witness: concrete path primitives. -/
def c10Env : TmpEnv :=
  { hasWorkspace := true, workspaceRoot := "/ws", osTmpDir := "/tmp",
    joinPath := fun a b => a ++ "/" ++ b, normalizePath := fun p => p,
    basename := fun p => String.mk ((p.data.reverse.takeWhile (fun c => !(c = '/'))).reverse) }

/-- C10: the scratch-artifact path computed by `showDiff` depends only on
the base name of the original file (and the workspace or temp root): any
two originals with equal base names map to the same scratch path, so a
second session for a same-named file reuses the first one's path. -/
theorem c10_scratch_path_basename (env : TmpEnv) (p1 p2 : String)
    (h : env.basename p1 = env.basename p2) :
    tmpFilePathFor env p1 = tmpFilePathFor env p2 := by
  rw [tmpFilePathFor, tmpFilePathFor, h]

/-- C10 witness: two distinct files with the same base name produce the
same scratch path. -/
theorem c10_scratch_path_basename_witness :
    c10Env.basename "/a/f.php" = c10Env.basename "/b/f.php" ∧
    tmpFilePathFor c10Env "/a/f.php" = tmpFilePathFor c10Env "/b/f.php" :=
  ⟨by decide, c10_scratch_path_basename c10Env "/a/f.php" "/b/f.php" (by decide)⟩
